import Mathlib

/-
Verification development for the file-upload-dropbox repository.

The embedding covers:
* the chunked resumable uploader of the browser client
  (class ResumableUploader in index.html): the chunk loop
  uploadChunks, the recovery query queryUploadStatus, and start;
* the Cloudflare worker (worker.js): fetch, isOriginAllowed,
  getAccessToken, sign, base64url;
* the React app level queue handling (handleRemoveFile and the
  onStateChange list update).

Network interactions are modelled by a script: a list of responses
consumed in order, one per network call the code issues.  Each run
returns the list of network events the code emitted together with the
terminal outcome.
-/

namespace Dropbox

/-- A scripted outcome for one network call.
`resp status range` - the fetch resolved with the given HTTP status and,
for PUT responses, the byte value parsed from the Range header
(`parseInt(range.split('-')[1], 10)`), when that header is present.
`initOk` - a session-initiation call succeeded and produced a fresh
session URL.  `fail` - the fetch (or response-body parsing) threw. -/
inductive Net where
  | resp (status : Nat) (range : Option Nat)
  | initOk
  | fail
deriving DecidableEq

/-- A network call issued by the uploader.
`chunkPut start stop total` - a chunk PUT of the half-open byte range
[start, stop) of a file of size `total`;
`statusQuery total` - the zero-byte recovery PUT (Content-Range bytes */total);
`initCall` - a call to the broker to open a (new) session. -/
inductive Event where
  | chunkPut (start stop total : Nat)
  | statusQuery (total : Nat)
  | initCall
deriving DecidableEq

/-- Outcome of one run of the chunk loop. -/
inductive UpResult where
  | done (bytes : Nat)
  | retryExhausted
  | recoveryError
  | outOfScript (bytes retry : Nat)
deriving DecidableEq

/-- Default chunk size of the uploader: `this.chunkSize = 10 * 1024 * 1024`. -/
def chunkSize : Nat := 10 * 1024 * 1024

/-- Default retry bound of the uploader: `this.maxRetries = 5`. -/
def maxRetries : Nat := 5

/-- New value of `bytesUploaded` after a chunk PUT answered with one of the
accepted statuses (308, 200, 201), from
`this.bytesUploaded = (status === 308 && headers.has('Range'))
   ? parseInt(range.split('-')[1], 10) + 1 : end`
where `end = Math.min(start + chunkSize, size)`. -/
def chunkAdvance (size chunkSz bytes status : Nat) (range : Option Nat) : Nat :=
  match status, range with
  | 308, some r => r + 1
  | _, _ => min (bytes + chunkSz) size

/-- Effect of a recovery status-query response on the session. -/
inductive RecoveryOut where
  | cont (newBytes : Nat)
  | dead
deriving DecidableEq

/-- queryUploadStatus response handling: 308 with a Range header resumes at
the parsed last byte + 1, 308 without one leaves `bytesUploaded` alone,
200/201 means the upload already finished (`bytesUploaded = size`), and
any other status means the session is dead and a new one is initiated. -/
def recoveryOut (size bytes status : Nat) (range : Option Nat) : RecoveryOut :=
  if status = 308 then
    match range with
    | some r => .cont (r + 1)
    | none => .cont bytes
  else if status = 200 ∨ status = 201 then .cont size
  else .dead

/-- Whether a chunk PUT response takes the success branch of uploadChunks:
`status === 308 || status === 200 || status === 201`. -/
def chunkOk : Net → Bool
  | .resp s _ => s = 308 || s = 200 || s = 201
  | _ => false

/-- `bytesUploaded` after a successful chunk PUT response. -/
def netAdvance (size chunkSz bytes : Nat) : Net → Nat
  | .resp s rng => chunkAdvance size chunkSz bytes s rng
  | _ => bytes

/-- One run of `uploadChunks` from state (`bytesUploaded` = bytes,
`currentRetry` = retry), consuming scripted responses in order.  Mirrors:
loop while bytes < size; slice [start, min(start+chunkSize, size));
PUT it; on 308/200/201 advance and reset the retry counter; otherwise
increment the retry counter, throw once it exceeds maxRetries, and
otherwise run queryUploadStatus (one more scripted response; a dead
session additionally consumes an initiation response and resets the
byte count to 0; a failing recovery call is terminal). -/
def runChunks (size chunkSz maxR bytes retry : Nat) (script : List Net) :
    List Event × UpResult :=
  if size ≤ bytes then ([], .done bytes)
  else
    match script with
    | [] => ([], .outOfScript bytes retry)
    | r :: rest =>
      let stop := min (bytes + chunkSz) size
      if chunkOk r then
        let out := runChunks size chunkSz maxR (netAdvance size chunkSz bytes r) 0 rest
        (.chunkPut bytes stop size :: out.1, out.2)
      else if maxR < retry + 1 then
        ([.chunkPut bytes stop size], .retryExhausted)
      else
        match rest with
        | [] => ([.chunkPut bytes stop size, .statusQuery size], .outOfScript bytes (retry + 1))
        | .fail :: _ =>
          ([.chunkPut bytes stop size, .statusQuery size], .recoveryError)
        | .initOk :: _ =>
          ([.chunkPut bytes stop size, .statusQuery size], .recoveryError)
        | .resp s2 rng2 :: rest2 =>
          match recoveryOut size bytes s2 rng2 with
          | .cont nb =>
            let out := runChunks size chunkSz maxR nb (retry + 1) rest2
            (.chunkPut bytes stop size :: .statusQuery size :: out.1, out.2)
          | .dead =>
            match rest2 with
            | [] =>
              ([.chunkPut bytes stop size, .statusQuery size, .initCall],
                .outOfScript bytes (retry + 1))
            | .initOk :: rest3 =>
              let out := runChunks size chunkSz maxR 0 (retry + 1) rest3
              (.chunkPut bytes stop size :: .statusQuery size :: .initCall :: out.1, out.2)
            | _ :: _ =>
              ([.chunkPut bytes stop size, .statusQuery size, .initCall], .recoveryError)

example :
    runChunks 20 10 5 0 0 [.resp 308 (some 9), .resp 200 none] =
      ([.chunkPut 0 10 20, .chunkPut 10 20 20], .done 20) := by decide

example :
    runChunks 20 10 5 0 0 [.fail, .resp 308 (some 4), .resp 200 none] =
      ([.chunkPut 0 10 20, .statusQuery 20, .chunkPut 5 15 20], .outOfScript 15 0) := by decide

/-- Outcome of the initiateUpload call made at the top of start. -/
inductive InitOutcome where
  | ok
  | thrown
deriving DecidableEq

/-- Terminal state reached by start: updateState is called with
status success or status error; outOfScript marks a scripted run whose
response list ran out before the loop finished. -/
inductive TaskEnd where
  | success
  | error
  | outOfScript
deriving DecidableEq

/-- One run of `start`: update to initiating, call initiateUpload (one
network call to the broker), then run uploadChunks against the script,
then (success path) send the notification and report success; any thrown
error is caught and reported as the error state.  There is no check of
the file size before initiateUpload. -/
def startRun (size chunkSz maxR : Nat) (inito : InitOutcome) (script : List Net) :
    List Event × TaskEnd :=
  match inito with
  | .thrown => ([.initCall], .error)
  | .ok =>
    let out := runChunks size chunkSz maxR 0 0 script
    (.initCall :: out.1,
      match out.2 with
      | .done _ => .success
      | .retryExhausted => .error
      | .recoveryError => .error
      | .outOfScript _ _ => .outOfScript)

/-- One entry of the uploadableFiles list kept by the App component. -/
structure FileEntry where
  id : String
  status : String
  progress : Nat
deriving DecidableEq

/-- handleRemoveFile: `prevFiles.filter(f => f.id !== fileIdToRemove)`. -/
def handleRemoveFile (fileIdToRemove : String) (files : List FileEntry) : List FileEntry :=
  files.filter (fun f => f.id != fileIdToRemove)

/-- The onStateChange callback of a task with id `uid`:
`prev.map(f => f.id === uf.id ? { ...f, ...newState } : f)`. -/
def applyStateChange (uid : String) (status : String) (progress : Nat)
    (files : List FileEntry) : List FileEntry :=
  files.map (fun f =>
    if f.id = uid then { f with status := status, progress := progress } else f)

/-
Worker model (src/worker.js).
-/

/-- Character class `[a-z0-9-]` of the origin allow-list regex. -/
def isScriptHostChar (c : Char) : Bool :=
  (97 ≤ c.toNat && c.toNat ≤ 122) || (48 ≤ c.toNat && c.toNat ≤ 57) || c.toNat == 45

/-- Fixed text before the host group in the allow-list regex. -/
def originPre : List Char := "https://n-".toList

/-- Fixed text after the host group in the allow-list regex. -/
def originSuf : List Char := "-0lu-script.googleusercontent.com".toList

/-- isOriginAllowed: `if (!origin) return false;` then a test of
`/^https:\/\/n-([a-z0-9-]\x7b32,\x7d)-0lu-script\.googleusercontent\.com$/`.
Because the prefix and the suffix of the regex have fixed lengths, the
anchored match holds exactly when the string starts with the prefix, ends
with the suffix, and the remaining middle has length at least 32 with every
character in the class. -/
def isOriginAllowed : Option (List Char) → Bool
  | none => false
  | some s =>
    originPre.isPrefixOf s && originSuf.isSuffixOf s &&
      decide (originPre.length + 32 + originSuf.length ≤ s.length) &&
      ((s.drop originPre.length).take (s.length - (originPre.length + originSuf.length))).all
        isScriptHostChar

/-- Scripted outcome of the token-exchange fetch in getAccessToken.
`thrown msg` - the fetch or `tokenResponse.json()` threw with message msg;
`json status accessToken` - the endpoint answered with HTTP `status` and a
JSON body whose access_token field is `accessToken` (none when the field
is missing, as in an OAuth error body).  getAccessToken reads only the
body field, never the status. -/
inductive TokenResp where
  | thrown (msg : List Char)
  | json (status : Nat) (accessToken : Option (List Char))
deriving DecidableEq

/-- Scripted outcome of the Drive session-create fetch. -/
inductive DriveResp where
  | thrown (msg : List Char)
  | resp (status : Nat) (location : Option (List Char)) (body : List Char)
deriving DecidableEq

/-- Network or crypto calls the worker makes while serving one request. -/
inductive WCall where
  | signCall
  | tokenCall
  | driveCall
deriving DecidableEq

/-- Result the worker returns to the caller. -/
inductive WResult where
  | forbidden
  | optionsResp
  | methodNotAllowed
  | okUrl (uploadUrl : Option (List Char))
  | errResp (msg : List Char)
deriving DecidableEq

/-- Message of the error thrown on a non-200 Drive response:
`Google API Error: status errorText`. -/
def googleApiErrorMsg (status : Nat) (body : List Char) : List Char :=
  "Google API Error: ".toList ++ (toString status).toList ++ " ".toList ++ body

/-- The worker fetch handler: reject a disallowed (or absent) Origin with
403 before anything else; answer OPTIONS preflights; reject non-POST;
otherwise sign a JWT, exchange it for a token (the response status and the
presence of access_token are never checked), create the Drive session, and
return the Location header on Drive status 200; a non-200 Drive status
throws `Google API Error: status body`, and every thrown error is caught
and returned as a 500 with success:false and the message. -/
def workerFetch (origin : Option (List Char)) (method : List Char)
    (tok : TokenResp) (drive : DriveResp) : List WCall × WResult :=
  if isOriginAllowed origin then
    if method = "OPTIONS".toList then ([], .optionsResp)
    else if method ≠ "POST".toList then ([], .methodNotAllowed)
    else
      match tok with
      | .thrown msg => ([.signCall, .tokenCall], .errResp msg)
      | .json _ _ =>
        match drive with
        | .thrown msg => ([.signCall, .tokenCall, .driveCall], .errResp msg)
        | .resp status loc body =>
          if status = 200 then ([.signCall, .tokenCall, .driveCall], .okUrl loc)
          else
            ([.signCall, .tokenCall, .driveCall], .errResp (googleApiErrorMsg status body))
  else ([], .forbidden)

/-- An origin accepted by the allow-list (a 36-character host group). -/
def goodOrigin : List Char :=
  "https://n-abcdefghijklmnopqrstuvwxyz0123456789-0lu-script.googleusercontent.com".toList

example : isOriginAllowed (some goodOrigin) = true := by decide

example : isOriginAllowed (some "https://evil.example.com".toList) = false := by decide

/-
JWT signing (worker.js sign and base64url).
-/

/-- The standard base64 alphabet used by btoa. -/
def b64Alphabet : List Char :=
  "ABCDEFGHIJKLMNOPQRSTUVWXYZabcdefghijklmnopqrstuvwxyz0123456789+/".toList

/-- Character for one 6-bit group. -/
def b64Char (n : Nat) : Char := b64Alphabet.getD n 'A'

/-- btoa of a byte sequence: standard base64 with `=` padding. -/
def btoaBytes : List Nat → List Char
  | [] => []
  | [b1] => [b64Char (b1 / 4), b64Char (b1 % 4 * 16), '=', '=']
  | [b1, b2] =>
    [b64Char (b1 / 4), b64Char (b1 % 4 * 16 + b2 / 16), b64Char (b2 % 16 * 4), '=']
  | b1 :: b2 :: b3 :: rest =>
    b64Char (b1 / 4) :: b64Char (b1 % 4 * 16 + b2 / 16) ::
      b64Char (b2 % 16 * 4 + b3 / 64) :: b64Char (b3 % 64) :: btoaBytes rest

/-- The character substitution applied after btoa:
`.replace(/\+/g, '-').replace(/\//g, '_')`. -/
def urlSafeChar (c : Char) : Char :=
  if c = '+' then '-' else if c = '/' then '_' else c

/-- base64url of worker.js: btoa, strip all `=`, then map `+` to `-` and
`/` to `_`. -/
def base64url (bs : List Nat) : List Char :=
  ((btoaBytes bs).filter (fun c => c != '=')).map urlSafeChar

/-- The URL-safe base64 alphabet. -/
def urlAlphabet : List Char :=
  "ABCDEFGHIJKLMNOPQRSTUVWXYZabcdefghijklmnopqrstuvwxyz0123456789-_".toList

/-- Value of one character of the URL-safe alphabet. -/
def b64Value (c : Char) : Option Nat :=
  if 65 ≤ c.toNat ∧ c.toNat ≤ 90 then some (c.toNat - 65)
  else if 97 ≤ c.toNat ∧ c.toNat ≤ 122 then some (c.toNat - 97 + 26)
  else if 48 ≤ c.toNat ∧ c.toNat ≤ 57 then some (c.toNat - 48 + 52)
  else if c = '-' then some 62
  else if c = '_' then some 63
  else none

/-- Decoder for unpadded base64url text, blockwise inverse of base64url. -/
def base64urlDecode : List Char → Option (List Nat)
  | [] => some []
  | [_] => none
  | [c1, c2] =>
    match b64Value c1, b64Value c2 with
    | some v1, some v2 =>
      if v2 % 16 = 0 then some [v1 * 4 + v2 / 16] else none
    | _, _ => none
  | [c1, c2, c3] =>
    match b64Value c1, b64Value c2, b64Value c3 with
    | some v1, some v2, some v3 =>
      if v3 % 4 = 0 then some [v1 * 4 + v2 / 16, v2 % 16 * 16 + v3 / 4] else none
    | _, _, _ => none
  | c1 :: c2 :: c3 :: c4 :: rest =>
    match b64Value c1, b64Value c2, b64Value c3, b64Value c4, base64urlDecode rest with
    | some v1, some v2, some v3, some v4, some bs =>
      some ((v1 * 4 + v2 / 16) :: (v2 % 16 * 16 + v3 / 4) :: (v3 % 4 * 64 + v4) :: bs)
    | _, _, _, _, _ => none

/-- Byte sequence of `JSON.stringify(\x7b alg: 'RS256', typ: 'JWT' \x7d)`. -/
def jwtHeaderBytes : List Nat :=
  ("\x7b\"alg\":\"RS256\",\"typ\":\"JWT\"\x7d".toList).map Char.toNat

/-- The sign function of worker.js, over the serialized claims bytes and
the RSA signature bytes produced by crypto.subtle.sign:
`encodedHeader.encodedPayload.encodedSignature`. -/
def sign (payload signature : List Nat) : List Char :=
  base64url jwtHeaderBytes ++ '.' :: (base64url payload ++ '.' :: base64url signature)

example : base64urlDecode (base64url [77, 97, 110, 33]) = some [77, 97, 110, 33] := by decide

example : base64urlDecode (base64url [251, 255]) = some [251, 255] := by decide

example : base64urlDecode (base64url jwtHeaderBytes) = some jwtHeaderBytes := by decide

/-
Derived notions used by the statements below.
-/

/-- The Content-Range header of a chunk PUT, built exactly as in
uploadChunks: half-open [start, stop) is put on the wire inclusively as
`bytes start-(stop-1)/total`. -/
def contentRangeHeader (start stop total : Nat) : List Char :=
  ("bytes " ++ toString start ++ "-" ++ toString (stop - 1) ++ "/" ++ toString total).toList

/-- The byte ranges of the chunk PUTs of an event list, in order. -/
def chunkRanges (evs : List Event) : List (Nat × Nat) :=
  evs.filterMap fun e =>
    match e with
    | .chunkPut s t _ => some (s, t)
    | _ => none

/-- The number of network calls in an event list. -/
def netCalls (evs : List Event) : Nat := evs.length

/-- `tilesB lo hi rs` holds when the ranges rs exactly tile the half-open
interval [lo, hi): they are in ascending order, each is non-empty, the
first starts at lo, each next one starts where the previous stopped, and
the last stops at hi. -/
def tilesB (lo hi : Nat) : List (Nat × Nat) → Bool
  | [] => lo == hi
  | (s, t) :: rest => s == lo && decide (lo < t) && decide (t ≤ hi) && tilesB t hi rest

/-- The response script of an upload on which every chunk PUT succeeds:
from byte position `bytes`, each non-final chunk is answered 308 with a
Range header confirming the whole chunk, and the final chunk is answered
200.  The fuel argument only bounds the recursion; `size` is enough. -/
def okScript (size chunkSz : Nat) : Nat → Nat → List Net
  | _, 0 => []
  | bytes, fuel + 1 =>
    if size ≤ bytes then []
    else
      let stop := min (bytes + chunkSz) size
      if stop = size then [.resp 200 none]
      else .resp 308 (some (stop - 1)) :: okScript size chunkSz stop fuel

/-- A script of n failing rounds: each round is a chunk PUT answered by a
transport failure followed by a recovery query answered 308 without a
Range header (the recovery succeeds but recovers nothing). -/
def failScript : Nat → List Net
  | 0 => []
  | n + 1 => .fail :: .resp 308 none :: failScript n

/-- The events of one failing round at byte position `bytes`. -/
def failRoundEvents (size chunkSz bytes : Nat) : List Event :=
  [.chunkPut bytes (min (bytes + chunkSz) size) size, .statusQuery size]

/-- The events of n failing rounds at byte position `bytes`. -/
def failEvents (size chunkSz bytes : Nat) : Nat → List Event
  | 0 => []
  | n + 1 => failRoundEvents size chunkSz bytes ++ failEvents size chunkSz bytes n

/-
Theorems.
-/

/-- C2: for every incoming request whose Origin header is absent or does
not satisfy the allow-list predicate, the broker returns a rejection (the
403 response) and invokes neither the JWT signer nor the token exchange -
no token is minted. -/
theorem c2_origin_rejected (origin : Option (List Char)) (method : List Char)
    (tok : TokenResp) (drive : DriveResp)
    (h : origin = none ∨ isOriginAllowed origin = false) :
    workerFetch origin method tok drive = ([], .forbidden) := by
  have hfalse : isOriginAllowed origin = false := by
    rcases h with h | h
    · rw [h]; rfl
    · exact h
  unfold workerFetch
  rw [hfalse]
  simp

theorem c2_origin_rejected_witness :
    workerFetch none ("POST".toList) (.json 200 (some "tok".toList))
      (.resp 200 (some "url".toList) []) = ([], .forbidden) :=
  c2_origin_rejected none ("POST".toList) (.json 200 (some "tok".toList))
    (.resp 200 (some "url".toList) []) (Or.inl rfl)

/-- C10: a chunk PUT answered 308 without a Range header advances
bytesUploaded to the end of the chunk just sent
(min (bytesUploaded + chunkSize, size)), whereas a recovery status query
answered 308 without a Range header leaves bytesUploaded unchanged. -/
theorem c10_308_without_range (size chunkSz bytes : Nat) :
    chunkAdvance size chunkSz bytes 308 none = min (bytes + chunkSz) size ∧
    recoveryOut size bytes 308 none = .cont bytes := by
  exact ⟨rfl, rfl⟩

/-- C8 counterexample: a zero-size file is not rejected before
initiation: start issues the broker initiation call (the claim says it
must not) and then runs to success without a single chunk PUT. -/
theorem c8_counterexample :
    startRun 0 chunkSize maxRetries .ok [] = ([.initCall], .success) ∧
    Event.initCall ∈ (startRun 0 chunkSize maxRetries .ok []).1 := by
  refine ⟨by decide, by decide⟩

/-- C8 amended: zero-size files are not rejected: start calls
broker.initiate, the chunk loop body never runs (no chunk PUT, so the
uploading state is never reported), and the task reaches success. -/
theorem c8_amended (chunkSz maxR : Nat) (script : List Net) :
    startRun 0 chunkSz maxR .ok script = ([.initCall], .success) ∧
    chunkRanges (startRun 0 chunkSz maxR .ok script).1 = [] := by
  have h : runChunks 0 chunkSz maxR 0 0 script = ([], .done 0) := by
    unfold runChunks
    simp
  constructor
  · unfold startRun
    rw [h]
  · unfold startRun
    rw [h]
    rfl

/-- C7 counterexample: a 200 response to a non-final chunk PUT does not
set bytesUploaded to the total size: for a 3-byte file with 2-byte
chunks, the first chunk answered 200 leaves bytesUploaded at 2, and the
loop keeps going (the upload is not treated as complete). -/
theorem c7_counterexample :
    runChunks 3 2 5 0 0 [.resp 200 none] = ([.chunkPut 0 2 3], .outOfScript 2 0) ∧
    (2 : Nat) ≠ 3 := by
  refine ⟨by decide, by decide⟩

/-- C7 amended: a 200/201 chunk response sets bytesUploaded to the end of
the chunk just sent, min (bytesUploaded + chunkSize, size), which equals
the total size exactly when the chunk was final; a recovery status query
answered 200/201 does set bytesUploaded to the total size. -/
theorem c7_amended (size chunkSz bytes status : Nat) (range : Option Nat)
    (h : status = 200 ∨ status = 201) :
    chunkAdvance size chunkSz bytes status range = min (bytes + chunkSz) size ∧
    (size ≤ bytes + chunkSz → chunkAdvance size chunkSz bytes status range = size) ∧
    recoveryOut size bytes status range = .cont size := by
  have h308 : status ≠ 308 := by omega
  have hadv : chunkAdvance size chunkSz bytes status range = min (bytes + chunkSz) size := by
    unfold chunkAdvance
    rcases h with h | h <;> rw [h]
  refine ⟨hadv, ?_, ?_⟩
  · intro hle
    rw [hadv]
    exact Nat.min_eq_right hle
  · unfold recoveryOut
    rw [if_neg h308, if_pos h]

theorem c7_amended_witness :
    (chunkAdvance 3 2 0 200 none = min (0 + 2) 3 ∧
      (3 ≤ 0 + 2 → chunkAdvance 3 2 0 200 none = 3) ∧
      recoveryOut 3 0 200 none = .cont 3) :=
  c7_amended 3 2 0 200 none (Or.inl rfl)

/-- C4 counterexample: bytesUploaded is not monotone across successful
chunk responses on one session: the code trusts the 308 Range header
unconditionally, so after the first chunk of a 20-byte upload is
confirmed to byte 10, a second 308 whose Range reports last byte 4 drags
bytesUploaded back from 10 to 5. -/
theorem c4_counterexample :
    runChunks 20 10 5 0 0 [.resp 308 (some 9)] =
      ([.chunkPut 0 10 20], .outOfScript 10 0) ∧
    runChunks 20 10 5 0 0 [.resp 308 (some 9), .resp 308 (some 4)] =
      ([.chunkPut 0 10 20, .chunkPut 10 20 20], .outOfScript 5 0) ∧
    5 < 10 := by
  refine ⟨by decide, by decide, by decide⟩

/-- C4 amended: within one session bytesUploaded never decreases across
successful chunk responses and recovery responses, provided every 308
Range header reports a last byte r with bytesUploaded ≤ r + 1 (the code
trusts the header unconditionally, so a regressing Range value does
decrease it) and bytesUploaded has not passed the total size. -/
theorem c4_amended (size chunkSz bytes status : Nat) (range : Option Nat)
    (hb : bytes ≤ size) (hr : ∀ r, range = some r → bytes ≤ r + 1) :
    bytes ≤ chunkAdvance size chunkSz bytes status range ∧
    (∀ nb, recoveryOut size bytes status range = .cont nb → bytes ≤ nb) := by
  have hmin : bytes ≤ min (bytes + chunkSz) size :=
    le_min (Nat.le_add_right _ _) hb
  constructor
  · unfold chunkAdvance
    split
    · next r => exact hr r rfl
    · exact hmin
  · intro nb hnb
    unfold recoveryOut at hnb
    by_cases h308 : status = 308
    · rw [if_pos h308] at hnb
      cases hrange : range with
      | none =>
        rw [hrange] at hnb
        cases hnb
        exact Nat.le_refl _
      | some r =>
        rw [hrange] at hnb
        cases hnb
        exact hr r hrange
    · rw [if_neg h308] at hnb
      by_cases h200 : status = 200 ∨ status = 201
      · rw [if_pos h200] at hnb
        cases hnb
        exact hb
      · rw [if_neg h200] at hnb
        cases hnb

theorem c4_amended_witness :
    (5 ≤ chunkAdvance 20 10 5 308 (some 9) ∧
      (∀ nb, recoveryOut 20 5 308 (some 9) = .cont nb → 5 ≤ nb)) :=
  c4_amended 20 10 5 308 (some 9) (by decide)
    (by intro r h; injection h with h1; omega)

/-- C9 counterexample: removing a file from the queue does not prevent
the submission of the next chunk: removal only filters the entry out of
the React list, the uploader object keeps no cancellation flag, and its
loop (a function of byte position and scripted responses alone) still
issues the next chunk PUT [10, 20) after the current suspension point;
only the state update is discarded because the mapped id no longer
matches any entry. -/
theorem c9_counterexample :
    handleRemoveFile "f1" [⟨"f1", "uploading", 50⟩] = [] ∧
    applyStateChange "f1" "uploading" 100 [] = [] ∧
    (runChunks 20 10 5 10 0 [.resp 200 none]).1 = [.chunkPut 10 20 20] := by
  refine ⟨by decide, by decide, by decide⟩

/-- C9 amended: removing a file deletes its queue entry, and every later
state update for that id is discarded (the queue is left unchanged), but
the upload itself is not cancelled: the chunk loop keeps issuing the
remaining chunk PUTs. -/
theorem c9_amended (uid status1 : String) (progress : Nat) (files : List FileEntry) :
    applyStateChange uid status1 progress (handleRemoveFile uid files) =
      handleRemoveFile uid files ∧
    runChunks 20 10 5 10 0 [.resp 200 none] = ([.chunkPut 10 20 20], .done 20) := by
  constructor
  · unfold applyStateChange handleRemoveFile
    induction files with
    | nil => rfl
    | cons f fs ih =>
      by_cases h : f.id = uid
      · simp [List.filter_cons, h, ih]
      · simp [List.filter_cons, h, ih]
  · decide

/-- Helper: n failing rounds (chunk transport failure, then a recovery
query answered 308 without Range) leave the byte position unchanged,
raise the retry counter by n, and append two network calls per round, as
long as the retry counter stays within the bound. -/
theorem runChunks_failScript (size chunkSz maxR bytes : Nat) (hb : bytes < size) :
    ∀ n retry tail, retry + n ≤ maxR →
      runChunks size chunkSz maxR bytes retry (failScript n ++ tail) =
        (failEvents size chunkSz bytes n ++
           (runChunks size chunkSz maxR bytes (retry + n) tail).1,
         (runChunks size chunkSz maxR bytes (retry + n) tail).2) := by
  intro n
  induction n with
  | zero =>
    intro retry tail _
    simp [failScript, failEvents]
  | succ n ih =>
    intro retry tail h
    have hle : ¬ size ≤ bytes := by omega
    have hn : ¬ maxR < retry + 1 := by omega
    have harr : retry + 1 + n = retry + (n + 1) := by omega
    show runChunks size chunkSz maxR bytes retry
        (.fail :: .resp 308 none :: (failScript n ++ tail)) = _
    rw [runChunks]
    simp only [if_neg hle, chunkOk, Bool.false_eq_true, if_false, if_neg hn,
      show recoveryOut size bytes 308 none = .cont bytes from rfl]
    rw [ih (retry + 1) tail (by omega), harr]
    simp [failEvents, failRoundEvents]

/-- C1 counterexample: with the default bound maxRetries = 5, after
exactly 5 consecutive chunk failures with no successful recovery the
task is not terminal: it issues further network calls (11 in total: 6
chunk PUTs and 5 status queries) and, the 6th chunk PUT succeeding,
even completes the upload. -/
theorem c1_counterexample :
    (runChunks 1 1 5 0 0 (failScript 5 ++ [.resp 200 none])).2 = .done 1 ∧
    netCalls (runChunks 1 1 5 0 0 (failScript 5 ++ [.resp 200 none])).1 = 11 := by
  refine ⟨by decide, by decide⟩

/-- C1 amended: each failing chunk PUT increments the retry counter, and
the task becomes terminal (RetryExhaustedError) when the counter exceeds
maxRetries; so maxRetries + 1 = 6 (not maxRetries) consecutive chunk
failures with no successful recovery make the task terminal, after which
no further network calls are issued - the run is independent of any
responses scripted past the last failure, and that last failing chunk
PUT is the final network call (2 * maxRetries + 1 calls in total). -/
theorem c1_retry_exhaustion (size chunkSz bytes : Nat) (hb : bytes < size)
    (tail : List Net) :
    runChunks size chunkSz maxRetries bytes 0 (failScript maxRetries ++ .fail :: tail) =
      (failEvents size chunkSz bytes maxRetries ++
         [.chunkPut bytes (min (bytes + chunkSz) size) size],
       .retryExhausted) ∧
    netCalls (failEvents size chunkSz bytes maxRetries ++
        [.chunkPut bytes (min (bytes + chunkSz) size) size]) = 2 * maxRetries + 1 := by
  have hle : ¬ size ≤ bytes := by omega
  constructor
  · rw [runChunks_failScript size chunkSz maxRetries bytes hb maxRetries 0
      (.fail :: tail) (by omega)]
    rw [runChunks]
    simp [hle, chunkOk, maxRetries]
  · simp [failEvents, failRoundEvents, netCalls, maxRetries]

/-- Helper: in every run, every chunk PUT covers exactly the half-open
range from its start position to min (start + chunkSize, size), and
carries the file's total size. -/
theorem runChunks_chunkPut_sliced (size chunkSz maxR : Nat) :
    ∀ bytes retry script s t tot,
      Event.chunkPut s t tot ∈ (runChunks size chunkSz maxR bytes retry script).1 →
      t = min (s + chunkSz) size ∧ tot = size := by
  intro bytes retry script
  induction bytes, retry, script using runChunks.induct size chunkSz maxR with
  | case1 script bytes retry h =>
    intro s t tot hm
    rw [runChunks.eq_def] at hm
    simp [h] at hm
  | case2 bytes retry h =>
    intro s t tot hm
    rw [runChunks] at hm
    simp [h] at hm
  | case3 bytes retry h r rest hok ih =>
    intro s t tot hm
    rw [runChunks] at hm
    simp only [if_neg h, hok, if_true, List.mem_cons] at hm
    rcases hm with hm | hm
    · cases hm
      exact ⟨rfl, rfl⟩
    · exact ih s t tot hm
  | case4 bytes retry h r rest hok hmax =>
    intro s t tot hm
    rw [runChunks] at hm
    simp only [if_neg h, hok, Bool.false_eq_true, if_false, if_pos hmax,
      List.mem_singleton] at hm
    cases hm
    exact ⟨rfl, rfl⟩
  | case5 bytes retry h r hok hmax =>
    intro s t tot hm
    rw [runChunks] at hm
    simp only [if_neg h, hok, Bool.false_eq_true, if_false, if_neg hmax,
      List.mem_cons, List.mem_singleton] at hm
    rcases hm with hm | hm | hm
    · cases hm; exact ⟨rfl, rfl⟩
    · cases hm
    · cases hm
  | case6 bytes retry h r hok hmax tail =>
    intro s t tot hm
    rw [runChunks] at hm
    simp only [if_neg h, hok, Bool.false_eq_true, if_false, if_neg hmax,
      List.mem_cons, List.mem_singleton] at hm
    rcases hm with hm | hm | hm
    · cases hm; exact ⟨rfl, rfl⟩
    · cases hm
    · cases hm
  | case7 bytes retry h r hok hmax tail =>
    intro s t tot hm
    rw [runChunks] at hm
    simp only [if_neg h, hok, Bool.false_eq_true, if_false, if_neg hmax,
      List.mem_cons, List.mem_singleton] at hm
    rcases hm with hm | hm | hm
    · cases hm; exact ⟨rfl, rfl⟩
    · cases hm
    · cases hm
  | case8 bytes retry h r hok hmax s2 rng2 rest2 nb hrec ih =>
    intro s t tot hm
    rw [runChunks] at hm
    simp only [if_neg h, hok, Bool.false_eq_true, if_false, if_neg hmax, hrec,
      List.mem_cons] at hm
    rcases hm with hm | hm | hm
    · cases hm; exact ⟨rfl, rfl⟩
    · cases hm
    · exact ih s t tot hm
  | case9 bytes retry h r hok hmax s2 rng2 hrec =>
    intro s t tot hm
    rw [runChunks] at hm
    simp only [if_neg h, hok, Bool.false_eq_true, if_false, if_neg hmax, hrec,
      List.mem_cons, List.mem_singleton] at hm
    rcases hm with hm | hm | hm | hm
    · cases hm; exact ⟨rfl, rfl⟩
    · cases hm
    · cases hm
    · cases hm
  | case10 bytes retry h r hok hmax s2 rng2 hrec rest3 ih =>
    intro s t tot hm
    rw [runChunks] at hm
    simp only [if_neg h, hok, Bool.false_eq_true, if_false, if_neg hmax, hrec,
      List.mem_cons] at hm
    rcases hm with hm | hm | hm | hm
    · cases hm; exact ⟨rfl, rfl⟩
    · cases hm
    · cases hm
    · exact ih s t tot hm
  | case11 bytes retry h r hok hmax s2 rng2 hrec head tail hni =>
    intro s t tot hm
    rw [runChunks] at hm
    simp only [if_neg h, hok, Bool.false_eq_true, if_false, if_neg hmax, hrec,
      List.mem_cons, List.mem_singleton] at hm
    rcases hm with hm | hm | hm | hm
    · cases hm; exact ⟨rfl, rfl⟩
    · cases hm
    · cases hm
    · cases hm

/-- Helper: on the script on which every chunk PUT succeeds, the run
completes and its chunk PUTs tile the remaining interval exactly. -/
theorem runChunks_okScript (size chunkSz maxR : Nat) (hc : 0 < chunkSz) :
    ∀ fuel bytes retry, bytes < size → size - bytes ≤ fuel →
      (runChunks size chunkSz maxR bytes retry (okScript size chunkSz bytes fuel)).2 =
        .done size ∧
      tilesB bytes size
        (chunkRanges
          (runChunks size chunkSz maxR bytes retry (okScript size chunkSz bytes fuel)).1) =
        true := by
  intro fuel
  induction fuel with
  | zero => intro bytes retry h1 h2; omega
  | succ f ih =>
    intro bytes retry h1 h2
    have hle : ¬ size ≤ bytes := by omega
    by_cases hstop : min (bytes + chunkSz) size = size
    · have hscript : okScript size chunkSz bytes (f + 1) = [Net.resp 200 none] := by
        rw [okScript]
        rw [if_neg hle]
        simp [hstop]
      have hend : runChunks size chunkSz maxR (min (bytes + chunkSz) size) 0 ([] : List Net) =
          ([], .done size) := by
        rw [runChunks]
        rw [hstop]
        simp
      have hrun : runChunks size chunkSz maxR bytes retry [Net.resp 200 none] =
          ([Event.chunkPut bytes (min (bytes + chunkSz) size) size], .done size) := by
        rw [runChunks]
        simp [hle, chunkOk, netAdvance, chunkAdvance, hend]
      rw [hscript, hrun]
      refine ⟨rfl, ?_⟩
      simp [chunkRanges, tilesB, hstop, h1]
    · have hmin : min (bytes + chunkSz) size = bytes + chunkSz := by omega
      have hlt : bytes + chunkSz < size := by omega
      have hscript : okScript size chunkSz bytes (f + 1) =
          .resp 308 (some (bytes + chunkSz - 1)) ::
            okScript size chunkSz (bytes + chunkSz) f := by
        rw [okScript]
        rw [if_neg hle]
        simp [hstop, hmin]
        omega
      have hok : chunkOk (.resp 308 (some (bytes + chunkSz - 1))) = true := rfl
      have hadv : netAdvance size chunkSz bytes (.resp 308 (some (bytes + chunkSz - 1))) =
          bytes + chunkSz := by
        simp only [netAdvance, chunkAdvance]
        omega
      have hrec := ih (bytes + chunkSz) 0 (by omega) (by omega)
      have hrun : runChunks size chunkSz maxR bytes retry
          (.resp 308 (some (bytes + chunkSz - 1)) ::
            okScript size chunkSz (bytes + chunkSz) f) =
          (Event.chunkPut bytes (min (bytes + chunkSz) size) size ::
            (runChunks size chunkSz maxR (bytes + chunkSz) 0
              (okScript size chunkSz (bytes + chunkSz) f)).1,
           (runChunks size chunkSz maxR (bytes + chunkSz) 0
              (okScript size chunkSz (bytes + chunkSz) f)).2) := by
        rw [runChunks]
        simp [hle, hok, hadv]
      rw [hscript, hrun]
      refine ⟨hrec.1, ?_⟩
      simp only [chunkRanges, List.filterMap_cons]
      simp only [tilesB, hmin]
      simp only [chunkRanges] at hrec
      rw [hrec.2]
      simp
      omega

/-- C3: every chunk PUT of the uploading loop slices the next chunk as
the half-open range from its start to min (start + chunkSize, totalSize)
(the default chunkSize is 10 MiB and the final chunk may be smaller), it
is sent with the Content-Range header `bytes start-(stop-1)/total` built
by contentRangeHeader (shown on the sample chunk [0, 10) of 20: wire
text `bytes 0-9/20`), and on a run in which every chunk PUT is accepted
the confirmed byte ranges exactly tile [0, total) in ascending order
with no gaps or overlaps, and the run completes. -/
theorem c3_slicing_and_tiling (size chunkSz maxR : Nat) (hc : 0 < chunkSz) :
    (∀ bytes retry script s t tot,
        Event.chunkPut s t tot ∈ (runChunks size chunkSz maxR bytes retry script).1 →
        t = min (s + chunkSz) size ∧ tot = size) ∧
    chunkSize = 10 * 1024 * 1024 ∧
    contentRangeHeader 0 10 20 = "bytes 0-9/20".toList ∧
    (runChunks size chunkSz maxR 0 0 (okScript size chunkSz 0 size)).2 = .done size ∧
    tilesB 0 size
      (chunkRanges (runChunks size chunkSz maxR 0 0 (okScript size chunkSz 0 size)).1) =
      true := by
  refine ⟨runChunks_chunkPut_sliced size chunkSz maxR, rfl, by decide, ?_⟩
  by_cases hsz : size = 0
  · subst hsz
    refine ⟨?_, ?_⟩
    · rw [okScript.eq_def]
      rw [runChunks.eq_def]
      simp
    · rw [okScript.eq_def]
      rw [runChunks.eq_def]
      simp [tilesB, chunkRanges]
  · have h := runChunks_okScript size chunkSz maxR hc size 0 0 (by omega) (by omega)
    exact ⟨h.1, h.2⟩

theorem c3_slicing_and_tiling_witness :
    ((∀ bytes retry script s t tot,
        Event.chunkPut s t tot ∈ (runChunks 26214400 10485760 5 bytes retry script).1 →
        t = min (s + 10485760) 26214400 ∧ tot = 26214400) ∧
      chunkSize = 10 * 1024 * 1024 ∧
      contentRangeHeader 0 10 20 = "bytes 0-9/20".toList ∧
      (runChunks 26214400 10485760 5 0 0 (okScript 26214400 10485760 0 26214400)).2 =
        .done 26214400 ∧
      tilesB 0 26214400
        (chunkRanges
          (runChunks 26214400 10485760 5 0 0 (okScript 26214400 10485760 0 26214400)).1) =
        true) :=
  c3_slicing_and_tiling 26214400 10485760 5 (by decide)

theorem c1_retry_exhaustion_witness :
    (0 < 1 ∧
      (runChunks 1 1 maxRetries 0 0 (failScript maxRetries ++ [.fail]) =
        (failEvents 1 1 0 maxRetries ++ [.chunkPut 0 (min (0 + 1) 1) 1],
         .retryExhausted) ∧
       netCalls (failEvents 1 1 0 maxRetries ++ [.chunkPut 0 (min (0 + 1) 1) 1]) =
         2 * maxRetries + 1)) :=
  ⟨by decide, c1_retry_exhaustion 1 1 0 (by decide) []⟩

/-- Helper: the value of an encoded-and-substituted base64 character. -/
theorem b64ValueFin : ∀ n : Fin 64, b64Value (urlSafeChar (b64Char n.val)) = some n.val := by
  decide

/-- Helper: b64Value inverts urlSafeChar after b64Char below 64. -/
theorem b64ValueLt {n : Nat} (h : n < 64) :
    b64Value (urlSafeChar (b64Char n)) = some n := b64ValueFin ⟨n, h⟩

/-- Helper: no alphabet character is the padding character. -/
theorem b64CharNePadFin : ∀ n : Fin 64, b64Char n.val ≠ '=' := by decide

/-- Helper: no alphabet character below 64 is the padding character. -/
theorem b64CharNePad {n : Nat} (h : n < 64) : b64Char n ≠ '=' := b64CharNePadFin ⟨n, h⟩

/-- Helper: filtering the padding keeps a non-padding head. -/
theorem filterPadCons (c : Char) (hc : c ≠ '=') (l : List Char) :
    (c :: l).filter (fun x => x != '=') = c :: l.filter (fun x => x != '=') := by
  simp [List.filter_cons, hc]

/-- Helper: filtering the padding drops a padding head. -/
theorem filterPadConsPad (l : List Char) :
    ('=' :: l).filter (fun x => x != '=') = l.filter (fun x => x != '=') := by
  simp [List.filter_cons]

/-- Helper: base64urlDecode inverts base64url on byte sequences. -/
theorem base64url_decode_encode :
    ∀ bs : List Nat, (∀ b ∈ bs, b < 256) → base64urlDecode (base64url bs) = some bs := by
  intro bs
  induction bs using btoaBytes.induct with
  | case1 =>
    intro _
    rfl
  | case2 b1 =>
    intro h
    have hb1 : b1 < 256 := h b1 (by simp)
    have h1 : b1 / 4 < 64 := by omega
    have h2 : b1 % 4 * 16 < 64 := by omega
    show base64urlDecode (((btoaBytes [b1]).filter (fun c => c != '=')).map urlSafeChar) =
      some [b1]
    rw [show btoaBytes [b1] = [b64Char (b1 / 4), b64Char (b1 % 4 * 16), '=', '='] from rfl]
    rw [filterPadCons _ (b64CharNePad h1), filterPadCons _ (b64CharNePad h2),
      filterPadConsPad, filterPadConsPad]
    rw [show List.filter (fun x => x != '=') ([] : List Char) = [] from rfl]
    rw [List.map_cons, List.map_cons, List.map_nil]
    rw [base64urlDecode]
    rw [b64ValueLt h1, b64ValueLt h2]
    dsimp only
    have hz : b1 % 4 * 16 % 16 = 0 := by omega
    rw [if_pos hz]
    have hv : b1 / 4 * 4 + b1 % 4 * 16 / 16 = b1 := by omega
    rw [hv]
  | case3 b1 b2 =>
    intro h
    have hb1 : b1 < 256 := h b1 (by simp)
    have hb2 : b2 < 256 := h b2 (by simp)
    have h1 : b1 / 4 < 64 := by omega
    have h2 : b1 % 4 * 16 + b2 / 16 < 64 := by omega
    have h3 : b2 % 16 * 4 < 64 := by omega
    show base64urlDecode (((btoaBytes [b1, b2]).filter (fun c => c != '=')).map urlSafeChar) =
      some [b1, b2]
    rw [show btoaBytes [b1, b2] =
      [b64Char (b1 / 4), b64Char (b1 % 4 * 16 + b2 / 16), b64Char (b2 % 16 * 4), '='] from rfl]
    rw [filterPadCons _ (b64CharNePad h1), filterPadCons _ (b64CharNePad h2),
      filterPadCons _ (b64CharNePad h3), filterPadConsPad]
    rw [show List.filter (fun x => x != '=') ([] : List Char) = [] from rfl]
    rw [List.map_cons, List.map_cons, List.map_cons, List.map_nil]
    rw [base64urlDecode]
    rw [b64ValueLt h1, b64ValueLt h2, b64ValueLt h3]
    dsimp only
    have hz : b2 % 16 * 4 % 4 = 0 := by omega
    rw [if_pos hz]
    have hv1 : b1 / 4 * 4 + (b1 % 4 * 16 + b2 / 16) / 16 = b1 := by omega
    have hv2 : (b1 % 4 * 16 + b2 / 16) % 16 * 16 + b2 % 16 * 4 / 4 = b2 := by omega
    rw [hv1, hv2]
  | case4 b1 b2 b3 rest ih =>
    intro h
    have hb1 : b1 < 256 := h b1 (by simp)
    have hb2 : b2 < 256 := h b2 (by simp)
    have hb3 : b3 < 256 := h b3 (by simp)
    have hrest : ∀ b ∈ rest, b < 256 := fun b hb => h b (by simp [hb])
    have h1 : b1 / 4 < 64 := by omega
    have h2 : b1 % 4 * 16 + b2 / 16 < 64 := by omega
    have h3 : b2 % 16 * 4 + b3 / 64 < 64 := by omega
    have h4 : b3 % 64 < 64 := by omega
    show base64urlDecode
        (((btoaBytes (b1 :: b2 :: b3 :: rest)).filter (fun c => c != '=')).map urlSafeChar) =
      some (b1 :: b2 :: b3 :: rest)
    rw [show btoaBytes (b1 :: b2 :: b3 :: rest) =
      b64Char (b1 / 4) :: b64Char (b1 % 4 * 16 + b2 / 16) ::
        b64Char (b2 % 16 * 4 + b3 / 64) :: b64Char (b3 % 64) :: btoaBytes rest from rfl]
    rw [filterPadCons _ (b64CharNePad h1), filterPadCons _ (b64CharNePad h2),
      filterPadCons _ (b64CharNePad h3), filterPadCons _ (b64CharNePad h4)]
    rw [List.map_cons, List.map_cons, List.map_cons, List.map_cons]
    rw [base64urlDecode]
    rw [b64ValueLt h1, b64ValueLt h2, b64ValueLt h3, b64ValueLt h4]
    rw [show ((btoaBytes rest).filter (fun c => c != '=')).map urlSafeChar = base64url rest
      from rfl]
    rw [ih hrest]
    dsimp only
    have hv1 : b1 / 4 * 4 + (b1 % 4 * 16 + b2 / 16) / 16 = b1 := by omega
    have hv2 : (b1 % 4 * 16 + b2 / 16) % 16 * 16 + (b2 % 16 * 4 + b3 / 64) / 4 = b2 := by
      omega
    have hv3 : (b2 % 16 * 4 + b3 / 64) % 4 * 64 + b3 % 64 = b3 := by omega
    rw [hv1, hv2, hv3]

/-- Helper: every substituted alphabet character is in the URL-safe
alphabet and is neither padding nor a dot. -/
theorem urlSafeMemFin : ∀ n : Fin 64,
    urlSafeChar (b64Char n.val) ∈ urlAlphabet ∧
      urlSafeChar (b64Char n.val) ≠ '=' ∧ urlSafeChar (b64Char n.val) ≠ '.' := by
  decide

/-- Helper: every character btoa emits is padding or an alphabet
character. -/
theorem mem_btoaBytes :
    ∀ bs : List Nat, (∀ b ∈ bs, b < 256) →
      ∀ c ∈ btoaBytes bs, c = '=' ∨ ∃ k, k < 64 ∧ c = b64Char k := by
  intro bs
  induction bs using btoaBytes.induct with
  | case1 =>
    intro _ c hc
    cases hc
  | case2 b1 =>
    intro h c hc
    have hb1 : b1 < 256 := h b1 (by simp)
    simp only [btoaBytes, List.mem_cons, List.not_mem_nil, or_false] at hc
    rcases hc with rfl | rfl | rfl | rfl
    · exact Or.inr ⟨b1 / 4, by omega, rfl⟩
    · exact Or.inr ⟨b1 % 4 * 16, by omega, rfl⟩
    · exact Or.inl rfl
    · exact Or.inl rfl
  | case3 b1 b2 =>
    intro h c hc
    have hb1 : b1 < 256 := h b1 (by simp)
    have hb2 : b2 < 256 := h b2 (by simp)
    simp only [btoaBytes, List.mem_cons, List.not_mem_nil, or_false] at hc
    rcases hc with rfl | rfl | rfl | rfl
    · exact Or.inr ⟨b1 / 4, by omega, rfl⟩
    · exact Or.inr ⟨b1 % 4 * 16 + b2 / 16, by omega, rfl⟩
    · exact Or.inr ⟨b2 % 16 * 4, by omega, rfl⟩
    · exact Or.inl rfl
  | case4 b1 b2 b3 rest ih =>
    intro h c hc
    have hb1 : b1 < 256 := h b1 (by simp)
    have hb2 : b2 < 256 := h b2 (by simp)
    have hb3 : b3 < 256 := h b3 (by simp)
    have hrest : ∀ b ∈ rest, b < 256 := fun b hb => h b (by simp [hb])
    simp only [btoaBytes, List.mem_cons] at hc
    rcases hc with rfl | rfl | rfl | rfl | hc
    · exact Or.inr ⟨b1 / 4, by omega, rfl⟩
    · exact Or.inr ⟨b1 % 4 * 16 + b2 / 16, by omega, rfl⟩
    · exact Or.inr ⟨b2 % 16 * 4 + b3 / 64, by omega, rfl⟩
    · exact Or.inr ⟨b3 % 64, by omega, rfl⟩
    · exact ih hrest c hc

/-- Helper: base64url output stays within the URL-safe alphabet, with no
padding and no dot. -/
theorem mem_base64url {bs : List Nat} (hb : ∀ b ∈ bs, b < 256) :
    ∀ c ∈ base64url bs, c ∈ urlAlphabet ∧ c ≠ '=' ∧ c ≠ '.' := by
  intro c hc
  unfold base64url at hc
  rcases List.mem_map.mp hc with ⟨c0, hc0, rfl⟩
  have hc0f := List.mem_filter.mp hc0
  rcases mem_btoaBytes bs hb c0 hc0f.1 with h | ⟨k, hk, rfl⟩
  · subst h
    simp at hc0f
  · exact urlSafeMemFin ⟨k, hk⟩

/-- C5: for every claims object (given by its JSON byte serialization)
and signature, sign builds the fixed header with alg RS256 and typ JWT,
base64url-encodes header and payload with no padding and within the
URL-safe alphabet (also no dot, so the token has exactly three parts),
returns the dot-joined compact token, and base64url-decoding the header
and payload parts reproduces exactly the header bytes and the claims
bytes supplied. -/
theorem c5_jwt_compact_token (payload signature : List Nat)
    (hp : ∀ b ∈ payload, b < 256) (hs : ∀ b ∈ signature, b < 256) :
    sign payload signature =
      base64url jwtHeaderBytes ++ '.' ::
        (base64url payload ++ '.' :: base64url signature) ∧
    base64urlDecode (base64url jwtHeaderBytes) = some jwtHeaderBytes ∧
    base64urlDecode (base64url payload) = some payload ∧
    (∀ c ∈ base64url jwtHeaderBytes, c ∈ urlAlphabet ∧ c ≠ '=' ∧ c ≠ '.') ∧
    (∀ c ∈ base64url payload, c ∈ urlAlphabet ∧ c ≠ '=' ∧ c ≠ '.') ∧
    (∀ c ∈ base64url signature, c ∈ urlAlphabet ∧ c ≠ '=' ∧ c ≠ '.') := by
  have hheader : ∀ b ∈ jwtHeaderBytes, b < 256 := by decide
  exact ⟨rfl, base64url_decode_encode _ hheader, base64url_decode_encode _ hp,
    mem_base64url hheader, mem_base64url hp, mem_base64url hs⟩

theorem c5_jwt_compact_token_witness :
    (sign ("\x7b\"iss\":\"a\"\x7d".toList.map Char.toNat) [0, 255, 16] =
        base64url jwtHeaderBytes ++ '.' ::
          (base64url ("\x7b\"iss\":\"a\"\x7d".toList.map Char.toNat) ++ '.' ::
            base64url [0, 255, 16]) ∧
      base64urlDecode (base64url jwtHeaderBytes) = some jwtHeaderBytes ∧
      base64urlDecode (base64url ("\x7b\"iss\":\"a\"\x7d".toList.map Char.toNat)) =
        some ("\x7b\"iss\":\"a\"\x7d".toList.map Char.toNat) ∧
      (∀ c ∈ base64url jwtHeaderBytes, c ∈ urlAlphabet ∧ c ≠ '=' ∧ c ≠ '.') ∧
      (∀ c ∈ base64url ("\x7b\"iss\":\"a\"\x7d".toList.map Char.toNat),
        c ∈ urlAlphabet ∧ c ≠ '=' ∧ c ≠ '.') ∧
      (∀ c ∈ base64url [0, 255, 16], c ∈ urlAlphabet ∧ c ≠ '=' ∧ c ≠ '.')) :=
  c5_jwt_compact_token ("\x7b\"iss\":\"a\"\x7d".toList.map Char.toNat) [0, 255, 16]
    (by decide) (by decide)

/-- C6 counterexample: a failure of the token exchange does not yield an
UpstreamError: when the token endpoint answers HTTP 400 with a JSON body
carrying no access_token, the worker proceeds to call the storage API
anyway (with an undefined bearer token), and if that call answers 200
the caller even receives success:true - no error is raised for the
failed exchange. -/
theorem c6_counterexample :
    workerFetch (some goodOrigin) "POST".toList (.json 400 none)
      (.resp 200 (some "sessionUrl".toList) []) =
      ([.signCall, .tokenCall, .driveCall], .okUrl (some "sessionUrl".toList)) := by
  decide

/-- C6 amended: for initiate calls that pass origin validation, a
token-exchange transport failure or unparsable response propagates as an
error result with the thrown message, but a token-exchange HTTP failure
with a parsable JSON body is not detected at the exchange - the worker
proceeds to the storage call; a non-200 storage session-create response
yields the UpstreamError `Google API Error: status body` carrying the
remote status and body, which the caller receives as success:false. -/
theorem c6_upstream_errors (origin : Option (List Char)) (msg body : List Char)
    (tstatus status : Nat) (accTok loc : Option (List Char)) (drive : DriveResp)
    (ho : isOriginAllowed origin = true) (hst : status ≠ 200) :
    workerFetch origin "POST".toList (.thrown msg) drive =
      ([.signCall, .tokenCall], .errResp msg) ∧
    workerFetch origin "POST".toList (.json tstatus accTok) (.resp status loc body) =
      ([.signCall, .tokenCall, .driveCall], .errResp (googleApiErrorMsg status body)) := by
  have hm1 : ¬ ("POST".toList = "OPTIONS".toList) := by decide
  refine ⟨?_, ?_⟩ <;> simp [workerFetch, ho, hm1, hst]

theorem c6_upstream_errors_witness :
    (isOriginAllowed (some goodOrigin) = true ∧ (401 : Nat) ≠ 200 ∧
      (workerFetch (some goodOrigin) "POST".toList (.thrown "kaboom".toList)
          (.thrown "x".toList) =
        ([.signCall, .tokenCall], .errResp "kaboom".toList) ∧
       workerFetch (some goodOrigin) "POST".toList (.json 400 none)
          (.resp 401 none "denied".toList) =
        ([.signCall, .tokenCall, .driveCall],
          .errResp (googleApiErrorMsg 401 "denied".toList)))) :=
  ⟨by decide, by decide,
    c6_upstream_errors (some goodOrigin) "kaboom".toList "denied".toList 400 401 none none
      (.thrown "x".toList) (by decide) (by decide)⟩

end Dropbox
